import Mathlib

/-!
A shallow embedding, in Lean 4, of the two core components of the Bamboards
text-mining pipeline:

* the evidence linker `find_sentence_containing` and the structured-entry
  construction of `build_structured_keywords.py`, and
* the phase classifier `score_phase` and the per-entry processing of
  `map_phase.py`.

Strings are modelled as `List Char`.  Python's case-insensitive operations are
modelled through an ASCII `Char.toLower`; the only non-ASCII characters that
occur in the concrete data considered here (German letters) are unchanged by
Python's `str.lower` as well.  Python floats are modelled by exact rationals:
every score is a sum of values from `{0, 1/2, 2/5}` and of ratios `cnt/len`
with denominator at most 15, and the selection logic only ever compares the
computed score values with each other, so exact arithmetic yields the same
comparisons.
-/

namespace Bamboards

/-- The ASCII whitespace characters recognised by Python's `\s`, `str.split()`
and `str.strip()` (the Unicode-only whitespace code points are not modelled;
none occurs in the data considered here). -/
def isSpace (c : Char) : Bool :=
  c == ' ' || c == '\t' || c == '\n' || c == '\r' || c == '\x0b' || c == '\x0c'

/-- The sentence-boundary characters of the splitting regex
`(?<=[.!?\n])\s+` in `find_sentence_containing`: the look-behind accepts
`.`, `!`, `?` or a newline. -/
def isBound : Option Char → Bool
  | some c => c == '.' || c == '!' || c == '?' || c == '\n'
  | none => false

/-- Python `str.lower`, restricted to ASCII (characters outside `A`–`Z` are
returned unchanged, as Python does for the German letters occurring here). -/
def lowerStr (s : List Char) : List Char :=
  s.map Char.toLower

/-- Python `str.strip()`: remove leading and trailing whitespace. -/
def trim (s : List Char) : List Char :=
  ((s.dropWhile isSpace).reverse.dropWhile isSpace).reverse

/-- `needle` matches at the very start of `hay` (Python `hay.startswith(needle)`),
used to realise the substring test below. -/
def prefixEq : List Char → List Char → Bool
  | [], _ => true
  | _ :: _, [] => false
  | a :: as, b :: bs => a == b && prefixEq as bs

/-- Python's substring test `needle in hay` on strings. -/
def containsSub (needle : List Char) : List Char → Bool
  | [] => prefixEq needle []
  | c :: rest => prefixEq needle (c :: rest) || containsSub needle rest

/-- Python `str.split()` (no argument): split on whitespace runs, discarding
empty pieces. -/
def splitWS (s : List Char) : List (List Char) :=
  (s.splitOnP isSpace).filter (fun t => !t.isEmpty)

/-- Python `str.split(',')`: split on every comma, keeping empty pieces. -/
def splitComma (s : List Char) : List (List Char) :=
  s.splitOnP (fun c => c == ',')

/-- The pass-2 test of the evidence linker, for the (already lowercased)
keyword `k` and a comma sub-clause `p`:
`any(tok in p.lower() for tok in k.split() if len(tok) > 2)`. -/
def tokenHit (k p : List Char) : Bool :=
  (splitWS k).any (fun tok => decide (2 < tok.length) && containsSub tok (lowerStr p))

/-- The scanning loop of `re.split(r'(?<=[.!?\n])\s+', text)`: `prev` is the
character just before the current position (for the look-behind), `cur` the
current segment accumulated in reverse, and `skipping` records whether the scan
is currently inside a separator (a whitespace run opened by a whitespace
character whose look-behind saw a boundary character; the run is swallowed
greedily, exactly as the regex `\s+` does). -/
def splitGo (prev : Option Char) (skipping : Bool) (cur : List Char) :
    List Char → List (List Char)
  | [] => [cur.reverse]
  | c :: rs =>
    if skipping then
      if isSpace c then splitGo prev true cur rs
      else splitGo (some c) false [c] rs
    else if isSpace c && isBound prev then
      cur.reverse :: splitGo none true [] rs
    else
      splitGo (some c) false (c :: cur) rs

/-- `re.split(r'(?<=[.!?\n])\s+', text)`: the sentence segmentation of the
evidence linker. -/
def splitSegs (text : List Char) : List (List Char) :=
  splitGo none false [] text

/-- The evidence linker `find_sentence_containing(text, keyword)` of
`build_structured_keywords.py`.  A `none` result models Python's `None`;
the empty list as `text` models both `None` and `""` (the guard is
`if not text`). -/
def find_sentence_containing (text keyword : List Char) : Option (List Char) :=
  if text = [] then none
  else
    let sentences := splitSegs text
    let k := lowerStr keyword
    match sentences.find? (fun s => containsSub k (lowerStr s)) with
    | some s => some (trim s)
    | none =>
      match sentences.findSome? (fun s => (splitComma s).find? (tokenHit k)) with
      | some p => some (trim p)
      | none => none

/-- An apostrophe character (used inside the placeholder strings of the
pipeline). -/
def apos : Char := Char.ofNat 39

/-- `llm_generate_prompts(keyword, citizen_sentence)` of
`build_structured_keywords.py` in the disabled configuration
(`HF_TOKEN` unset, hence `USE_LLM = False`): the function returns the two
fixed placeholder strings without looking at its arguments.  The first
component is `design_suggestion`, the second `planning_suggestion`. -/
def llm_generate_prompts (_keyword _citizen_sentence : List Char) :
    List Char × List Char :=
  ("[LLM disabled] craft design suggestion here".data,
   "[LLM disabled] craft planning suggestion here".data)

/-- The fallback string `f"[HF empty] design suggestion for '{phrase}'"` used
by `main` when a suggestion comes back empty. -/
def hfEmptyDesign (phrase : List Char) : List Char :=
  "[HF empty] design suggestion for ".data ++ apos :: phrase ++ [apos]

/-- The fallback string `f"[HF empty] planning suggestion for '{phrase}'"`
used by `main` when a suggestion comes back empty. -/
def hfEmptyPlanning (phrase : List Char) : List Char :=
  "[HF empty] planning suggestion for ".data ++ apos :: phrase ++ [apos]

/-- A Structured Keyword Entry as written to `structured_keywords.json` by
`build_structured_keywords.py` (the `roles` sub-dictionaries are flattened
into fields). -/
structure Entry where
  day : List Char
  keyword : List Char
  original_sentence : List Char
  exact_sentence : List Char
  design_suggestion : List Char
  planning_suggestion : List Char
  source : List Char
deriving DecidableEq, Repr

/-- `next((s for s in ex_sents if s and s.strip()), None)`: the first example
sentence that is non-empty and has a non-blank strip. -/
def firstNonBlank (xs : List (List Char)) : Option (List Char) :=
  xs.find? (fun s => !s.isEmpty && !(trim s).isEmpty)

/-- The per-keyword entry construction inside `main` of
`build_structured_keywords.py`, for a keyword `phrase` (already stripped and
non-empty at the call site), the extracted document text `text`, the file's
example sentences and its recorded source string. -/
def buildEntry (text phrase : List Char) (ex_sents : List (List Char))
    (src : List Char) : Entry :=
  let sentence0 := (find_sentence_containing text phrase).getD []
  let sentence :=
    if sentence0 = [] then
      match firstNonBlank ex_sents with
      | some first => trim first
      | none => sentence0
    else sentence0
  let suggestions := llm_generate_prompts phrase sentence
  let design_sugg :=
    if suggestions.1 = [] then hfEmptyDesign phrase else suggestions.1
  let plan_sugg :=
    if suggestions.2 = [] then hfEmptyPlanning phrase else suggestions.2
  { day := []
    keyword := phrase
    original_sentence := sentence
    exact_sentence := sentence
    design_suggestion := design_sugg
    planning_suggestion := plan_sugg
    source := src }

/-!  ### The phase classifier of `map_phase.py`  -/

/-- Python's `\w` word characters, as relevant here: ASCII alphanumerics, the
underscore, and the German letters occurring in the data (Python's `\w` is
Unicode-aware; the other Unicode word characters play no role in this
development). -/
def isWordChar (c : Char) : Bool :=
  c.isAlphanum || c == '_' ||
    c == 'ä' || c == 'ö' || c == 'ü' || c == 'Ä' || c == 'Ö' || c == 'Ü' || c == 'ß'

/-- The look-behind of a `\b` word boundary: `none` is the start of the text,
otherwise the character before the candidate occurrence must not be a word
character. -/
def okBefore : Option Char → Bool
  | none => true
  | some c => !isWordChar c

/-- The look-ahead of a `\b` word boundary: end of text, or a non-word
character next. -/
def okAfterL : List Char → Bool
  | [] => true
  | c :: _ => !isWordChar c

/-- `w` is a prefix of `t` and is followed by a word boundary. -/
def matchHere (w t : List Char) : Bool :=
  match w, t with
  | [], t => okAfterL t
  | _ :: _, [] => false
  | c :: cs, d :: ds => c == d && matchHere cs ds

/-- Scan `t` left to right for an occurrence of `w` that sits between word
boundaries; `prev` is the character before the current position. -/
def searchFrom (prev : Option Char) (w t : List Char) : Bool :=
  match t with
  | [] => okBefore prev && matchHere w []
  | c :: rs => (okBefore prev && matchHere w (c :: rs)) || searchFrom (some c) w rs

/-- `re.compile(r"\b" + re.escape(w) + r"\b", re.I).search(t)` for a lowercase
word `w`: a case-insensitive whole-word search.  (The rubric words are all
lowercase, and `isWordChar` is unaffected by lowercasing, so performing the
boundary checks on the lowered text is equivalent.) -/
def containsWord (w t : List Char) : Bool :=
  searchFrom none w (lowerStr t)

/-- The `discover_kw` rubric of `map_phase.py`. -/
def discover_kw : List (List Char) :=
  ["interview".data, "survey".data, "feedback".data, "research".data,
   "usability".data, "test".data, "workshop".data, "frage".data,
   "umfrage".data, "evaluation".data, "bericht".data, "quotes".data,
   "responses".data]

/-- The `define_kw` rubric of `map_phase.py`. -/
def define_kw : List (List Char) :=
  ["priorit".data, "priority".data, "zusammenfassung".data, "analyse".data,
   "problem".data, "concern".data, "bedarf".data, "priorisier".data,
   "synthes".data, "define".data, "summary".data]

/-- The `develop_kw` rubric of `map_phase.py`. -/
def develop_kw : List (List Char) :=
  ["design".data, "prototype".data, "mockup".data, "widget".data,
   "interaction".data, "ux".data, "ui".data, "layout".data, "skizzen".data,
   "feature".data, "funktion".data, "karte".data, "filter".data,
   "visual".data, "gamification".data]

/-- The `deliver_kw` rubric of `map_phase.py`. -/
def deliver_kw : List (List Char) :=
  ["deploy".data, "pilot".data, "rollout".data, "implement".data,
   "integration".data, "publish".data, "veroeffentlichung".data,
   "launch".data, "betrieb".data, "operate".data, "produktion".data,
   "plan".data, "planung".data, "ticketing".data]

/-- `norm_count(patterns)` inside `score_phase`: the number of rubric words
with a whole-word match in `t`, divided by `max(1, len(patterns))`. -/
def normCount (ws : List (List Char)) (t : List Char) : ℚ :=
  ((ws.filter (fun w => containsWord w t)).length : ℚ) / (max 1 ws.length : ℕ)

/-- `scores['Discover']` as computed by `score_phase`: the normalized hit
ratio plus the `+0.5` citizen boost. -/
def scoreDiscover (t citizen_text : List Char) : ℚ :=
  normCount discover_kw t +
    (if discover_kw.any (fun w => containsWord w citizen_text) then 1/2 else 0)

/-- `scores['Define']` as computed by `score_phase`. -/
def scoreDefine (t : List Char) : ℚ :=
  normCount define_kw t

/-- `scores['Develop']` as computed by `score_phase`: the normalized hit
ratio plus the `+0.4` designer boost. -/
def scoreDevelop (t designer_text : List Char) : ℚ :=
  normCount develop_kw t +
    (if designer_text ≠ [] ∧ 0 < (trim designer_text).length then 2/5 else 0)

/-- `scores['Deliver']` as computed by `score_phase`: the normalized hit
ratio plus the `+0.4` planner boost. -/
def scoreDeliver (t planner_text : List Char) : ℚ :=
  normCount deliver_kw t +
    (if planner_text ≠ [] ∧ 0 < (trim planner_text).length then 2/5 else 0)

/-- `score_phase(full_text, designer_text, planner_text, citizen_text)` of
`map_phase.py`.  The result is an `Option`: the Python function returns `None`
(falls off the final loop) if no phase score equals the maximum, which in fact
never happens. -/
def score_phase (full_text designer_text planner_text citizen_text : List Char) :
    Option (List Char) :=
  let sDiscover := scoreDiscover full_text citizen_text
  let sDefine := scoreDefine full_text
  let sDevelop := scoreDevelop full_text designer_text
  let sDeliver := scoreDeliver full_text planner_text
  let best := max (max sDiscover sDefine) (max sDevelop sDeliver)
  if best = 0 then some ("Discover".data)
  else if sDiscover = best then some ("Discover".data)
  else if sDefine = best then some ("Define".data)
  else if sDevelop = best then some ("Develop".data)
  else if sDeliver = best then some ("Deliver".data)
  else none

/-- Python `" ".join(parts)`. -/
def joinSep : List (List Char) → List Char
  | [] => []
  | [x] => x
  | x :: rest => x ++ ' ' :: joinSep rest

/-- The citizen text selected by `main` of `map_phase.py`:
`exact_sentence or original_sentence`. -/
def entryCitizen (e : Entry) : List Char :=
  if e.exact_sentence ≠ [] then e.exact_sentence else e.original_sentence

/-- The non-empty text parts collected by `main` of `map_phase.py` for one
entry. -/
def entryParts (e : Entry) : List (List Char) :=
  [e.keyword, entryCitizen e, e.design_suggestion, e.planning_suggestion,
   e.source].filter (fun p => p ≠ [])

/-- The concatenated text blob `full` of `main` of `map_phase.py`. -/
def entryBlob (e : Entry) : List Char :=
  joinSep (entryParts e)

/-- An entry of `structured_keywords_phased.json`: the same fields with `day`
removed and `phase` added (`none` models a Python `None` phase, which in fact
never occurs). -/
structure EntryOut where
  keyword : List Char
  original_sentence : List Char
  exact_sentence : List Char
  design_suggestion : List Char
  planning_suggestion : List Char
  source : List Char
  phase : Option (List Char)
deriving DecidableEq, Repr

/-- The per-item body of the loop in `main` of `map_phase.py`: classify the
entry, add `phase`, delete `day`. -/
def processEntry (e : Entry) : EntryOut :=
  { keyword := e.keyword
    original_sentence := e.original_sentence
    exact_sentence := e.exact_sentence
    design_suggestion := e.design_suggestion
    planning_suggestion := e.planning_suggestion
    source := e.source
    phase := score_phase (entryBlob e) e.design_suggestion
      e.planning_suggestion (entryCitizen e) }

/-- The entry-list transformation performed by `main` of `map_phase.py`
between reading `structured_keywords.json` and writing
`structured_keywords_phased.json`. -/
def map_phase_main (data : List Entry) : List EntryOut :=
  data.map processEntry

/-- The phase-selection rule in the words of the specification: take the
maximum of the four scores; if it is exactly `0` return `Discover`; otherwise
walk the phases in the fixed order Discover, Define, Develop, Deliver and
return the first one whose score equals the maximum. -/
def spec_select (sDiscover sDefine sDevelop sDeliver : ℚ) : Option (List Char) :=
  let best := max (max sDiscover sDefine) (max sDevelop sDeliver)
  if best = 0 then some ("Discover".data)
  else
    (([("Discover".data, sDiscover), ("Define".data, sDefine),
       ("Develop".data, sDevelop), ("Deliver".data, sDeliver)].find?
        (fun pr => decide (pr.2 = best))).map Prod.fst)

/-!  ### Helper lemmas  -/

/-- `matchHere` characterised: `w` is a prefix of `t` followed by a word
boundary. -/
theorem matchHere_iff (w t : List Char) :
    matchHere w t = true ↔ ∃ rest, t = w ++ rest ∧ okAfterL rest = true := by
  induction w generalizing t with
  | nil =>
    simp [matchHere]
  | cons c cs ih =>
    cases t with
    | nil => simp [matchHere]
    | cons d ds =>
      simp only [matchHere, Bool.and_eq_true, beq_iff_eq, ih, List.cons_append,
        List.cons.injEq]
      constructor
      · rintro ⟨rfl, rest, rfl, hr⟩
        exact ⟨rest, ⟨rfl, rfl⟩, hr⟩
      · rintro ⟨rest, ⟨rfl, rfl⟩, hr⟩
        exact ⟨rfl, rest, rfl, hr⟩

/-- A boundary-respecting prefix match survives appending text that starts
with a word boundary. -/
theorem matchHere_append {w t z : List Char} (h : matchHere w t = true)
    (hz : okAfterL z = true) : matchHere w (t ++ z) = true := by
  rcases (matchHere_iff w t).mp h with ⟨rest, rfl, hr⟩
  refine (matchHere_iff w _).mpr ⟨rest ++ z, by simp, ?_⟩
  cases rest with
  | nil => simpa using hz
  | cons c r => simpa [okAfterL] using hr

/-- When the look-behind is already satisfied, the previous character is
irrelevant to the search. -/
theorem searchFrom_irrel {p : Option Char} (hp : okBefore p = true)
    (w t : List Char) : searchFrom p w t = searchFrom none w t := by
  cases t with
  | nil =>
    simp only [searchFrom]
    rw [hp]
    simp [okBefore]
  | cons c rs =>
    simp only [searchFrom]
    rw [hp]
    simp [okBefore]

/-- A whole-word occurrence survives appending text that starts with a word
boundary. -/
theorem searchFrom_append_right {w z : List Char} (hz : okAfterL z = true) :
    ∀ (t : List Char) (prev : Option Char), searchFrom prev w t = true →
      searchFrom prev w (t ++ z) = true := by
  intro t
  induction t with
  | nil =>
    intro prev h
    simp only [searchFrom, Bool.and_eq_true] at h
    rcases h with ⟨hb, hm⟩
    rcases (matchHere_iff w []).mp hm with ⟨rest, hrest, -⟩
    rcases List.append_eq_nil.mp hrest.symm with ⟨rfl, rfl⟩
    cases z with
    | nil => simp [searchFrom, hb, matchHere, okAfterL]
    | cons c zs =>
      simp only [List.nil_append, searchFrom, Bool.or_eq_true, Bool.and_eq_true]
      exact Or.inl ⟨hb, by simpa [matchHere] using hz⟩
  | cons c rs ih =>
    intro prev h
    simp only [searchFrom, Bool.or_eq_true, Bool.and_eq_true] at h ⊢
    rcases h with ⟨hb, hm⟩ | hrec
    · exact Or.inl ⟨hb, by simpa using matchHere_append hm hz⟩
    · exact Or.inr (ih (some c) hrec)

/-- The look-behind state that precedes a candidate occurrence after scanning
past `l`: the last character of `l`, if any, must be a non-word character;
for empty `l` the inherited state `prev` decides. -/
def okBeforeL (prev : Option Char) : List Char → Bool
  | [] => okBefore prev
  | c :: rest => okBeforeL (some c) rest

theorem okBeforeL_append (x : List Char) :
    ∀ (prev : Option Char) (c : Char) (rest : List Char),
      okBeforeL prev (x ++ c :: rest) = okBeforeL (some c) rest := by
  induction x with
  | nil => intro prev c rest; rfl
  | cons a x ih => intro prev c rest; exact ih (some a) c rest

theorem okBeforeL_of_okBefore {p : Option Char} (hp : okBefore p = true)
    {l : List Char} (h : okBeforeL none l = true) : okBeforeL p l = true := by
  cases l with
  | nil => exact hp
  | cons c rest => exact h

/-- A whole-word occurrence survives prepending text that ends in a word
boundary. -/
theorem searchFrom_prepend {w t : List Char} (h : searchFrom none w t = true) :
    ∀ (pre : List Char) (prev : Option Char), okBeforeL prev pre = true →
      searchFrom prev w (pre ++ t) = true := by
  intro pre
  induction pre with
  | nil =>
    intro prev hp
    rw [List.nil_append, searchFrom_irrel hp]
    exact h
  | cons c pre' ih =>
    intro prev hp
    simp only [List.cons_append, searchFrom, Bool.or_eq_true]
    exact Or.inr (ih (some c) hp)

/-- Every member of a space-joined list of parts sits between word
boundaries inside the join. -/
theorem joinSep_decomp {x : List Char} :
    ∀ parts : List (List Char), x ∈ parts →
      ∃ pre post, joinSep parts = pre ++ (x ++ post) ∧
        okBeforeL none pre = true ∧ okAfterL post = true := by
  intro parts
  induction parts with
  | nil => intro h; cases h
  | cons y ys ih =>
    intro hmem
    rcases List.mem_cons.mp hmem with rfl | hmem'
    · cases ys with
      | nil => exact ⟨[], [], by simp [joinSep], rfl, rfl⟩
      | cons z zs =>
        refine ⟨[], ' ' :: joinSep (z :: zs), by simp [joinSep], rfl, ?_⟩
        simp [okAfterL, isWordChar]
    · rcases ih hmem' with ⟨pre, post, heq, hpre, hpost⟩
      have hys : ys ≠ [] := by
        intro h
        rw [h] at hmem'
        cases hmem'
      refine ⟨y ++ ' ' :: pre, post, ?_, ?_, hpost⟩
      · cases ys with
        | nil => exact absurd rfl hys
        | cons z zs =>
          show joinSep (y :: z :: zs) = _
          rw [show joinSep (y :: z :: zs) = y ++ ' ' :: joinSep (z :: zs) from rfl,
            heq]
          simp
      · rw [okBeforeL_append]
        refine okBeforeL_of_okBefore ?_ hpre
        simp [okBefore, isWordChar]

/-- Lowercasing commutes with the space-join. -/
theorem lowerStr_joinSep (parts : List (List Char)) :
    lowerStr (joinSep parts) = joinSep (parts.map lowerStr) := by
  induction parts with
  | nil => rfl
  | cons x ys ih =>
    cases ys with
    | nil => rfl
    | cons y zs =>
      show lowerStr (x ++ ' ' :: joinSep (y :: zs)) =
        lowerStr x ++ ' ' :: joinSep ((y :: zs).map lowerStr)
      rw [← ih]
      simp only [lowerStr, List.map_append, List.map_cons]
      rw [show Char.toLower ' ' = ' ' from by decide]

/-- A whole-word match inside one part of a space-joined blob is a whole-word
match in the blob. -/
theorem containsWord_mem_joinSep {w x : List Char} {parts : List (List Char)}
    (hx : x ∈ parts) (h : containsWord w x = true) :
    containsWord w (joinSep parts) = true := by
  unfold containsWord at h ⊢
  rw [lowerStr_joinSep]
  have hx' : lowerStr x ∈ parts.map lowerStr := List.mem_map_of_mem _ hx
  rcases joinSep_decomp _ hx' with ⟨pre, post, heq, hpre, hpost⟩
  rw [heq]
  exact searchFrom_prepend (searchFrom_append_right hpost _ _ h) pre none hpre

/-- If no rubric word of a category matches the text, that category's
normalized ratio is `0`. -/
theorem normCount_eq_zero {ws : List (List Char)} {t : List Char}
    (h : ∀ w ∈ ws, containsWord w t = false) : normCount ws t = 0 := by
  unfold normCount
  rw [List.filter_eq_nil_iff.mpr (by intro w hw; simp [h w hw])]
  simp

/-- The four scores, as a convenient list of (phase, score) pairs is not
needed: the maximum of the four scores is attained by one of them. -/
theorem max4_choice (a b c d : ℚ) :
    max (max a b) (max c d) = a ∨ max (max a b) (max c d) = b ∨
      max (max a b) (max c d) = c ∨ max (max a b) (max c d) = d := by
  rcases max_choice (max a b) (max c d) with h | h <;> rw [h]
  · rcases max_choice a b with h' | h' <;> rw [h'] <;> simp
  · rcases max_choice c d with h' | h' <;> rw [h'] <;> simp

/-- The selection loop of `score_phase` always returns a phase: the Python
function never falls through to `None`. -/
theorem score_phase_isSome (f d p c : List Char) :
    (score_phase f d p c).isSome = true := by
  unfold score_phase
  dsimp only
  split
  · rfl
  · split
    · rfl
    · split
      · rfl
      · split
        · rfl
        · split
          · rfl
          · rename_i h0 h1 h2 h3 h4
            rcases max4_choice (scoreDiscover f c) (scoreDefine f)
              (scoreDevelop f d) (scoreDeliver f p) with h | h | h | h <;>
              simp_all

/-- The nested first-match loop of pass 2 (first matching comma sub-clause of
the first matching segment) equals a single first-match over the flattened
list of sub-clauses. -/
theorem findSome?_find?_join (f : List Char → List (List Char))
    (q : List Char → Bool) (l : List (List Char)) :
    l.findSome? (fun s => (f s).find? q) = ((l.map f).flatten).find? q := by
  induction l with
  | nil => rfl
  | cons a l ih =>
    rw [List.map_cons, List.flatten_cons, List.find?_append, List.findSome?_cons]
    cases h : (f a).find? q with
    | none => simpa [h, Option.or] using ih
    | some v => simp [h, Option.or]

/-- The segmentation scan never produces an empty list of segments. -/
theorem splitGo_ne_nil :
    ∀ (lst : List Char) (prev : Option Char) (sk : Bool) (cur : List Char),
      splitGo prev sk cur lst ≠ [] := by
  intro lst
  induction lst with
  | nil => intro prev sk cur; simp [splitGo]
  | cons c rs ih =>
    intro prev sk cur
    unfold splitGo
    split
    · split
      · exact ih _ _ _
      · exact ih _ _ _
    · split
      · simp
      · exact ih _ _ _

/-- `trim` of the empty string is empty. -/
theorem trim_nil : trim [] = [] := rfl

/-- The designer/planner boost condition of `score_phase` is equivalent to
"non-empty after trimming". -/
theorem boost_cond_iff (d : List Char) :
    (d ≠ [] ∧ 0 < (trim d).length) ↔ trim d ≠ [] := by
  constructor
  · rintro ⟨-, h⟩
    exact List.ne_nil_of_length_pos h
  · intro h
    refine ⟨?_, List.length_pos.mpr h⟩
    rintro rfl
    exact h trim_nil

/-- The selection chain of `score_phase`, abstracted over the four already
computed scores. -/
def phaseOfScores (sDiscover sDefine sDevelop sDeliver : ℚ) : Option (List Char) :=
  let best := max (max sDiscover sDefine) (max sDevelop sDeliver)
  if best = 0 then some ("Discover".data)
  else if sDiscover = best then some ("Discover".data)
  else if sDefine = best then some ("Define".data)
  else if sDevelop = best then some ("Develop".data)
  else if sDeliver = best then some ("Deliver".data)
  else none

theorem score_phase_eq (f d p c : List Char) :
    score_phase f d p c = phaseOfScores (scoreDiscover f c) (scoreDefine f)
      (scoreDevelop f d) (scoreDeliver f p) := rfl

theorem phaseOfScores_eq_spec_select (a b c d : ℚ) :
    phaseOfScores a b c d = spec_select a b c d := by
  unfold phaseOfScores spec_select
  dsimp only
  by_cases h0 : max (max a b) (max c d) = 0
  · rw [if_pos h0, if_pos h0]
  · rw [if_neg h0, if_neg h0]
    by_cases h1 : a = max (max a b) (max c d)
    · rw [if_pos h1, List.find?_cons_of_pos _ (by simpa using h1)]
      rfl
    · rw [if_neg h1, List.find?_cons_of_neg _ (by simpa using h1)]
      by_cases h2 : b = max (max a b) (max c d)
      · rw [if_pos h2, List.find?_cons_of_pos _ (by simpa using h2)]
        rfl
      · rw [if_neg h2, List.find?_cons_of_neg _ (by simpa using h2)]
        by_cases h3 : c = max (max a b) (max c d)
        · rw [if_pos h3, List.find?_cons_of_pos _ (by simpa using h3)]
          rfl
        · rw [if_neg h3, List.find?_cons_of_neg _ (by simpa using h3)]
          by_cases h4 : d = max (max a b) (max c d)
          · rw [if_pos h4, List.find?_cons_of_pos _ (by simpa using h4)]
            rfl
          · rw [if_neg h4, List.find?_cons_of_neg _ (by simpa using h4)]
            rfl

/-- Python `'' in s` is always true: the empty string is a substring of every
string. -/
theorem containsSub_nil (x : List Char) : containsSub [] x = true := by
  cases x with
  | nil => rfl
  | cons c rest => simp [containsSub, prefixEq]

/-!  ### The claims  -/

/-- Claim C1, counterexample: the pass-1 guarantee fails as stated.  The text
`"ab. cd"` is non-empty, the phrase `"b. c"` is non-empty and occurs verbatim
(case-insensitively) in the text, yet `find_sentence_containing` returns
`None`: the occurrence spans a sentence-segment boundary, so no single segment
contains it, and all phrase tokens have length at most 2, so pass 2 cannot
match either. -/
theorem C1_counterexample :
    "ab. cd".data ≠ [] ∧ "b. c".data ≠ [] ∧
    containsSub (lowerStr "b. c".data) (lowerStr "ab. cd".data) = true ∧
    find_sentence_containing "ab. cd".data "b. c".data = none :=
  ⟨by decide, by decide, by decide, by decide⟩

/-- Claim C1 (amended): for every non-empty text and non-empty phrase such
that some sentence segment's lowercase form contains the phrase's lowercase
form verbatim, `find_sentence_containing` returns the first such segment in
segmentation order, trimmed of leading and trailing whitespace. -/
theorem C1_pass1_first_segment (text keyword seg : List Char)
    (htext : text ≠ []) (_hkw : keyword ≠ [])
    (h : (splitSegs text).find?
      (fun s => containsSub (lowerStr keyword) (lowerStr s)) = some seg) :
    find_sentence_containing text keyword = some (trim seg) := by
  unfold find_sentence_containing
  rw [if_neg htext]
  dsimp only
  rw [h]

/-- Claim C1, witness for the amended theorem at a concrete input. -/
theorem C1_witness :
    find_sentence_containing "Hello World. Bye.".data "world".data =
      some (trim "Hello World.".data) :=
  C1_pass1_first_segment _ _ _ (by decide) (by decide) (by decide)

/-- The all-empty Structured Keyword Entry. -/
def emptyEntry : Entry :=
  { day := [], keyword := [], original_sentence := [], exact_sentence := [],
    design_suggestion := [], planning_suggestion := [], source := [] }

/-- Claim C2: `score_phase` selects its result by taking the maximum of the
four phase scores, returning `Discover` when the maximum is exactly `0` and
otherwise the first phase in the fixed order Discover, Define, Develop,
Deliver whose score equals the maximum (`spec_select` is that selection rule,
written as a first-match walk over the ordered phase list); and the entry
whose keyword, sentences, suggestions and source are all empty is assigned
`Discover`. -/
theorem C2_selection_rule :
    (∀ f d p c : List Char,
      score_phase f d p c = spec_select (scoreDiscover f c) (scoreDefine f)
        (scoreDevelop f d) (scoreDeliver f p)) ∧
    (processEntry emptyEntry).phase = some ("Discover".data) := by
  constructor
  · intro f d p c
    rw [score_phase_eq, phaseOfScores_eq_spec_select]
  · show score_phase (entryBlob emptyEntry) [] [] (entryCitizen emptyEntry) = _
    rw [score_phase_eq]
    have hblob : entryBlob emptyEntry = [] := rfl
    have hcit : entryCitizen emptyEntry = [] := rfl
    rw [hblob, hcit]
    have hD : scoreDiscover [] [] = 0 := by
      unfold scoreDiscover
      rw [normCount_eq_zero (by decide),
        show (discover_kw.any fun w => containsWord w []) = false from by decide]
      simp
    have hDef : scoreDefine [] = 0 := by
      unfold scoreDefine
      exact normCount_eq_zero (by decide)
    have hDev : scoreDevelop [] [] = 0 := by
      unfold scoreDevelop
      rw [normCount_eq_zero (by decide), if_neg (by simp)]
      simp
    have hDel : scoreDeliver [] [] = 0 := by
      unfold scoreDeliver
      rw [normCount_eq_zero (by decide), if_neg (by simp)]
      simp
    rw [hD, hDef, hDev, hDel]
    unfold phaseOfScores
    norm_num

/-- Claim C3: the scores computed by `score_phase` are exactly the normalized
per-category hit ratios plus these boosts and no others — `+1/2` to Discover
when the citizen sentence contains a Discover-category term as a
case-insensitive whole word, `+2/5` to Develop when the designer suggestion is
non-empty after trimming, `+2/5` to Deliver when the planner suggestion is
non-empty after trimming, and no boost for Define.  (`0.5` and `0.4` are the
exact rationals `1/2` and `2/5`.) -/
theorem C3_boost_rules (f d p c : List Char) :
    scoreDiscover f c = normCount discover_kw f +
      (if discover_kw.any (fun w => containsWord w c) then 1/2 else 0) ∧
    scoreDefine f = normCount define_kw f ∧
    scoreDevelop f d = normCount develop_kw f +
      (if trim d ≠ [] then 2/5 else 0) ∧
    scoreDeliver f p = normCount deliver_kw f +
      (if trim p ≠ [] then 2/5 else 0) := by
  refine ⟨rfl, rfl, ?_, ?_⟩
  · unfold scoreDevelop
    congr 1
    simp only [boost_cond_iff]
  · unfold scoreDeliver
    congr 1
    simp only [boost_cond_iff]

/-- Claim C4: the null and pass-2 contracts of the evidence linker.  For null
or empty text the linker returns `None`.  If pass 1 fails (no segment's
lowercase form contains the phrase) and `p` is the first comma sub-clause, in
order, containing a phrase token longer than two characters, the linker
returns `p` trimmed.  If moreover every whitespace token of the phrase has
length at most 2, the linker returns `None` whenever pass 1 fails. -/
theorem C4_pass2_and_null (text keyword : List Char) :
    (text = [] → find_sentence_containing text keyword = none) ∧
    (∀ p : List Char, text ≠ [] →
      ((splitSegs text).all
        (fun s => !containsSub (lowerStr keyword) (lowerStr s))) = true →
      ((splitSegs text).map splitComma).flatten.find?
        (tokenHit (lowerStr keyword)) = some p →
      find_sentence_containing text keyword = some (trim p)) ∧
    ((∀ tok ∈ splitWS (lowerStr keyword), tok.length ≤ 2) →
      ((splitSegs text).all
        (fun s => !containsSub (lowerStr keyword) (lowerStr s))) = true →
      find_sentence_containing text keyword = none) := by
  refine ⟨?_, ?_, ?_⟩
  · intro h
    unfold find_sentence_containing
    rw [if_pos h]
  · intro p ht hall hfind
    unfold find_sentence_containing
    rw [if_neg ht]
    dsimp only
    rw [List.find?_eq_none.mpr (by
      intro s hs
      have := List.all_eq_true.mp hall s hs
      simpa using this)]
    rw [findSome?_find?_join splitComma (tokenHit (lowerStr keyword)), hfind]
  · intro hshort hall
    by_cases ht : text = []
    · unfold find_sentence_containing
      rw [if_pos ht]
    · unfold find_sentence_containing
      rw [if_neg ht]
      dsimp only
      rw [List.find?_eq_none.mpr (by
        intro s hs
        have := List.all_eq_true.mp hall s hs
        simpa using this)]
      rw [List.findSome?_eq_none_iff.mpr (by
        intro s hs
        refine List.find?_eq_none.mpr ?_
        intro q hq
        intro hhit
        rcases List.any_eq_true.mp hhit with ⟨tok, htok, hcond⟩
        simp only [Bool.and_eq_true, decide_eq_true_eq] at hcond
        obtain ⟨h2, -⟩ := hcond
        have h3 : tok.length ≤ 2 := hshort tok htok
        omega)]

/-- Claim C4, witness: the three branches at concrete inputs — null text,
a pass-2 hit, and an all-short-token phrase. -/
theorem C4_witness :
    find_sentence_containing [] "x".data = none ∧
    find_sentence_containing "hello world".data "xyz world".data =
      some (trim "hello world".data) ∧
    find_sentence_containing "zzz".data "ab cd".data = none :=
  ⟨(C4_pass2_and_null [] "x".data).1 rfl,
   (C4_pass2_and_null "hello world".data "xyz world".data).2.1
     "hello world".data (by decide) (by decide) (by decide),
   (C4_pass2_and_null "zzz".data "ab cd".data).2.2 (by decide) (by decide)⟩

/-- The end-to-end example entry of the specification: keyword `"Umfrage"`,
the German citizen sentence, and empty designer suggestion, planner
suggestion and source. -/
def umfrageEntry : Entry :=
  { day := []
    keyword := "Umfrage".data
    original_sentence :=
      "Die Umfrage zeigte großes Interesse an mehr Sitzgelegenheiten.".data
    exact_sentence :=
      "Die Umfrage zeigte großes Interesse an mehr Sitzgelegenheiten.".data
    design_suggestion := []
    planning_suggestion := []
    source := [] }

/-- Claim C5, counterexample: the claim's "no boosts apply" is false for the
Umfrage entry.  The citizen sentence contains the Discover-category term
"umfrage" as a whole word, so the `+1/2` citizen boost is applied: Discover's
score is strictly larger than the bare normalized ratio. -/
theorem C5_counterexample :
    (discover_kw.any fun w => containsWord w (entryCitizen umfrageEntry)) = true ∧
    scoreDiscover (entryBlob umfrageEntry) (entryCitizen umfrageEntry) ≠
      normCount discover_kw (entryBlob umfrageEntry) := by
  have hcnt : (discover_kw.filter fun w =>
      containsWord w (entryBlob umfrageEntry)).length = 1 := by decide
  have hlen : discover_kw.length = 13 := by decide
  have hD : normCount discover_kw (entryBlob umfrageEntry) = 1/13 := by
    unfold normCount
    rw [hcnt, hlen]
    norm_num
  have hboost : (discover_kw.any fun w =>
      containsWord w (entryCitizen umfrageEntry)) = true := by decide
  refine ⟨hboost, ?_⟩
  unfold scoreDiscover
  rw [hD, if_pos hboost]
  norm_num

/-- Claim C5 (amended): for the Umfrage entry the Discover-category normalized
ratio is positive, the Define/Develop/Deliver ratios are `0`, the citizen
Discover boost applies (Discover's score is the ratio plus `1/2`) while the
designer and planner boosts do not (those scores stay `0`), and the classifier
assigns phase `Discover`. -/
theorem C5_umfrage_example :
    0 < normCount discover_kw (entryBlob umfrageEntry) ∧
    normCount define_kw (entryBlob umfrageEntry) = 0 ∧
    normCount develop_kw (entryBlob umfrageEntry) = 0 ∧
    normCount deliver_kw (entryBlob umfrageEntry) = 0 ∧
    scoreDiscover (entryBlob umfrageEntry) (entryCitizen umfrageEntry) =
      normCount discover_kw (entryBlob umfrageEntry) + 1/2 ∧
    scoreDevelop (entryBlob umfrageEntry) umfrageEntry.design_suggestion = 0 ∧
    scoreDeliver (entryBlob umfrageEntry) umfrageEntry.planning_suggestion = 0 ∧
    (processEntry umfrageEntry).phase = some ("Discover".data) := by
  have hcnt : (discover_kw.filter fun w =>
      containsWord w (entryBlob umfrageEntry)).length = 1 := by decide
  have hlen : discover_kw.length = 13 := by decide
  have hD : normCount discover_kw (entryBlob umfrageEntry) = 1/13 := by
    unfold normCount
    rw [hcnt, hlen]
    norm_num
  have hDef : normCount define_kw (entryBlob umfrageEntry) = 0 :=
    normCount_eq_zero (by decide)
  have hDev : normCount develop_kw (entryBlob umfrageEntry) = 0 :=
    normCount_eq_zero (by decide)
  have hDel : normCount deliver_kw (entryBlob umfrageEntry) = 0 :=
    normCount_eq_zero (by decide)
  have hboost : (discover_kw.any fun w =>
      containsWord w (entryCitizen umfrageEntry)) = true := by decide
  have hS : scoreDiscover (entryBlob umfrageEntry) (entryCitizen umfrageEntry) =
      1/13 + 1/2 := by
    unfold scoreDiscover
    rw [hD, if_pos hboost]
  have hSDef : scoreDefine (entryBlob umfrageEntry) = 0 := by
    unfold scoreDefine
    exact hDef
  have hSDev : scoreDevelop (entryBlob umfrageEntry)
      umfrageEntry.design_suggestion = 0 := by
    unfold scoreDevelop
    rw [hDev, if_neg (by simp [umfrageEntry])]
    norm_num
  have hSDel : scoreDeliver (entryBlob umfrageEntry)
      umfrageEntry.planning_suggestion = 0 := by
    unfold scoreDeliver
    rw [hDel, if_neg (by simp [umfrageEntry])]
    norm_num
  refine ⟨by rw [hD]; norm_num, hDef, hDev, hDel, by rw [hS, hD], hSDev, hSDel, ?_⟩
  show score_phase (entryBlob umfrageEntry) umfrageEntry.design_suggestion
    umfrageEntry.planning_suggestion (entryCitizen umfrageEntry) = _
  rw [score_phase_eq, hS, hSDef, hSDev, hSDel]
  unfold phaseOfScores
  norm_num [max_def]

/-- Claim C6, counterexample: with the generative path disabled the two
placeholder strings returned by `llm_generate_prompts` do not contain the
phrase (here `"Umfrage"`), neither verbatim nor case-insensitively — they are
fixed constants mentioning no keyword at all. -/
theorem C6_counterexample :
    containsSub "Umfrage".data
      (llm_generate_prompts "Umfrage".data []).1 = false ∧
    containsSub "Umfrage".data
      (llm_generate_prompts "Umfrage".data []).2 = false ∧
    containsSub (lowerStr "Umfrage".data)
      (lowerStr (llm_generate_prompts "Umfrage".data []).1) = false ∧
    containsSub (lowerStr "Umfrage".data)
      (lowerStr (llm_generate_prompts "Umfrage".data []).2) = false :=
  ⟨by decide, by decide, by decide, by decide⟩

/-- Claim C6 (amended): when the generative-suggestion path is disabled the
generator deterministically returns, for every input, the two fixed non-empty
placeholder strings (which do not in general contain the phrase). -/
theorem C6_disabled_placeholders (keyword citizen_sentence : List Char) :
    llm_generate_prompts keyword citizen_sentence =
      ("[LLM disabled] craft design suggestion here".data,
       "[LLM disabled] craft planning suggestion here".data) ∧
    (llm_generate_prompts keyword citizen_sentence).1 ≠ [] ∧
    (llm_generate_prompts keyword citizen_sentence).2 ≠ [] :=
  ⟨rfl, by simp [llm_generate_prompts], by simp [llm_generate_prompts]⟩

/-- Claim C7: boost dominance.  If an entry's designer suggestion is non-empty
after trimming and no term of any of the four rubrics has a whole-word match
in the entry's concatenated blob, the classifier assigns `Develop`; when the
planner suggestion is also non-empty, Develop and Deliver both score exactly
`2/5` and Develop wins by tie-break order. -/
theorem C7_boost_dominance (e : Entry)
    (hdes : trim e.design_suggestion ≠ [])
    (hb : ∀ w ∈ discover_kw ++ define_kw ++ develop_kw ++ deliver_kw,
      containsWord w (entryBlob e) = false) :
    (processEntry e).phase = some ("Develop".data) ∧
    (trim e.planning_suggestion ≠ [] →
      scoreDevelop (entryBlob e) e.design_suggestion = 2/5 ∧
      scoreDeliver (entryBlob e) e.planning_suggestion = 2/5) := by
  have hb1 : ∀ w ∈ discover_kw, containsWord w (entryBlob e) = false :=
    fun w hw => hb w (by simp [hw])
  have hb2 : ∀ w ∈ define_kw, containsWord w (entryBlob e) = false :=
    fun w hw => hb w (by simp [hw])
  have hb3 : ∀ w ∈ develop_kw, containsWord w (entryBlob e) = false :=
    fun w hw => hb w (by simp [hw])
  have hb4 : ∀ w ∈ deliver_kw, containsWord w (entryBlob e) = false :=
    fun w hw => hb w (by simp [hw])
  have hcit : (discover_kw.any fun w =>
      containsWord w (entryCitizen e)) = false := by
    by_cases hc : entryCitizen e = []
    · rw [hc]
      decide
    · refine List.any_eq_false.mpr ?_
      intro w hw
      intro hcw
      have hmem : entryCitizen e ∈ entryParts e := by
        unfold entryParts
        refine List.mem_filter.mpr ⟨by simp, by simpa using hc⟩
      have hblob : containsWord w (entryBlob e) = true :=
        containsWord_mem_joinSep hmem hcw
      have hfalse := hb1 w hw
      rw [hblob] at hfalse
      cases hfalse
  have hD : scoreDiscover (entryBlob e) (entryCitizen e) = 0 := by
    unfold scoreDiscover
    rw [normCount_eq_zero hb1, hcit]
    norm_num
  have hDef : scoreDefine (entryBlob e) = 0 := by
    unfold scoreDefine
    exact normCount_eq_zero hb2
  have hDev : scoreDevelop (entryBlob e) e.design_suggestion = 2/5 := by
    unfold scoreDevelop
    rw [normCount_eq_zero hb3, if_pos ((boost_cond_iff _).mpr hdes)]
    norm_num
  have hDelC : scoreDeliver (entryBlob e) e.planning_suggestion = 0 ∨
      scoreDeliver (entryBlob e) e.planning_suggestion = 2/5 := by
    unfold scoreDeliver
    rw [normCount_eq_zero hb4]
    by_cases hp : e.planning_suggestion ≠ [] ∧ 0 < (trim e.planning_suggestion).length
    · right
      rw [if_pos hp]
      norm_num
    · left
      rw [if_neg hp]
      norm_num
  constructor
  · show score_phase (entryBlob e) e.design_suggestion e.planning_suggestion
      (entryCitizen e) = _
    rcases hDelC with h | h <;>
      rw [score_phase_eq, hD, hDef, hDev, h] <;>
      unfold phaseOfScores <;>
      norm_num [max_def]
  · intro hplan
    refine ⟨hDev, ?_⟩
    unfold scoreDeliver
    rw [normCount_eq_zero hb4, if_pos ((boost_cond_iff _).mpr hplan)]
    norm_num

/-- Claim C7, witness: a concrete entry with a non-empty designer suggestion
and a blob matching no rubric term is classified as `Develop`. -/
theorem C7_witness :
    (processEntry
      { day := [], keyword := "xyz".data, original_sentence := [],
        exact_sentence := [], design_suggestion := "abc".data,
        planning_suggestion := [], source := [] }).phase =
      some ("Develop".data) :=
  (C7_boost_dominance _ (by decide) (by decide)).1

/-- Claim C8: the phase stage maps the input entries one-to-one, in order and
with the same count, onto the output entries; every output entry keeps all
fields of its input entry unchanged (`day` is dropped by the output record
type) and gains a `phase` field, which is always present (the classifier
never falls through). -/
theorem C8_round_trip (data : List Entry) :
    (map_phase_main data).length = data.length ∧
    (∀ i : ℕ, (map_phase_main data)[i]? = (data[i]?).map processEntry) ∧
    (∀ e : Entry,
      (processEntry e).keyword = e.keyword ∧
      (processEntry e).original_sentence = e.original_sentence ∧
      (processEntry e).exact_sentence = e.exact_sentence ∧
      (processEntry e).design_suggestion = e.design_suggestion ∧
      (processEntry e).planning_suggestion = e.planning_suggestion ∧
      (processEntry e).source = e.source ∧
      ((processEntry e).phase).isSome = true) := by
  refine ⟨by simp [map_phase_main], fun i => by simp [map_phase_main], fun e =>
    ⟨rfl, rfl, rfl, rfl, rfl, rfl, score_phase_isSome _ _ _ _⟩⟩

/-- Claim C9: every entry created by the synthesis stage carries the same
sentence in `original_sentence` and `exact_sentence`, and the phase stage
preserves all role fields unchanged. -/
theorem C9_citizen_duplication (text phrase : List Char)
    (ex_sents : List (List Char)) (src : List Char) (e : Entry) :
    (buildEntry text phrase ex_sents src).original_sentence =
      (buildEntry text phrase ex_sents src).exact_sentence ∧
    (processEntry e).original_sentence = e.original_sentence ∧
    (processEntry e).exact_sentence = e.exact_sentence ∧
    (processEntry e).design_suggestion = e.design_suggestion ∧
    (processEntry e).planning_suggestion = e.planning_suggestion :=
  ⟨rfl, rfl, rfl, rfl, rfl⟩

/-- Claim C10: for non-empty text and the empty phrase,
`find_sentence_containing` does not return `None`: the empty string is a
substring of every segment, so pass 1 returns the first sentence segment,
trimmed. -/
theorem C10_empty_phrase (text : List Char) (h : text ≠ []) :
    find_sentence_containing text [] =
      some (trim ((splitSegs text).headI)) := by
  unfold find_sentence_containing
  rw [if_neg h]
  dsimp only
  obtain ⟨s, rest, hs⟩ : ∃ s rest, splitSegs text = s :: rest := by
    cases hq : splitSegs text with
    | nil => exact absurd hq (splitGo_ne_nil _ _ _ _)
    | cons s rest => exact ⟨s, rest, rfl⟩
  rw [hs, List.find?_cons_of_pos _ (by
    show containsSub (lowerStr []) (lowerStr s) = true
    exact containsSub_nil _)]
  rfl

/-- Claim C10, witness at a concrete input. -/
theorem C10_witness :
    find_sentence_containing "Hi there. Bye.".data [] =
      some (trim ((splitSegs "Hi there. Bye.".data).headI)) :=
  C10_empty_phrase _ (by decide)

end Bamboards
